import Mathlib

/-!
# Verification of the booking-agent email pipeline

A shallow embedding of the email-driven scheduling assistant
(`src/booking_agent.py`, `src/email_util.py`, `src/email_processor.py`,
`src/clerk_util.py`).  Strings are modelled as `List Char` (Python `str`
over the ASCII inputs the pipeline handles); Python regular-expression
searches are modelled by explicit scanning functions whose leftmost /
greedy behaviour mirrors `re.search` for the concrete patterns that the
source uses.
-/

namespace BookingAgent

/-- Python `\s` (ASCII range): the whitespace characters recognised by
`str.split`, `str.strip` and the `\s` character class for the pipeline's
ASCII inputs. -/
def pySpace (c : Char) : Bool :=
  c = ' ' ∨ c = '\t' ∨ c = '\n' ∨ c = '\r' ∨ c = '\x0b' ∨ c = '\x0c'

/-- Python `str.strip()`: remove leading and trailing whitespace. -/
def pyStrip (l : List Char) : List Char :=
  ((l.dropWhile pySpace).reverse.dropWhile pySpace).reverse

/-- Python `str.lower()` (ASCII). -/
def pyLower (l : List Char) : List Char := l.map Char.toLower

/-- Python `str.upper()` (ASCII). -/
def pyUpper (l : List Char) : List Char := l.map Char.toUpper

/-- Python `str.split('\n')` (note: `''.split('\n') == ['']`, so the
result is never empty). -/
def splitNl (l : List Char) : List (List Char) :=
  match l with
  | [] => [[]]
  | c :: rest =>
      match splitNl rest with
      | [] => if c = '\n' then [[], []] else [[c]]
      | first :: more =>
          if c = '\n' then [] :: first :: more else (c :: first) :: more

/-- Python `'\n'.join(lines)`. -/
def joinNl : List (List Char) → List Char
  | [] => []
  | [l] => l
  | l :: rest => l ++ '\n' :: joinNl rest

/-- Helper for `tokens`: `cur` holds the (reversed) run of non-whitespace
characters currently being scanned. -/
def tokensAux : List Char → List Char → List (List Char)
  | [], cur => if cur.isEmpty then [] else [cur.reverse]
  | c :: rest, cur =>
      if pySpace c then
        if cur.isEmpty then tokensAux rest [] else cur.reverse :: tokensAux rest []
      else tokensAux rest (c :: cur)

/-- The whitespace-delimited tokens of a string (maximal runs of
non-whitespace characters). -/
def tokens (l : List Char) : List (List Char) := tokensAux l []

theorem tokensAux_ne (l : List Char) (cur : List Char) (h : cur ≠ []) :
    tokensAux l cur =
      (cur.reverse ++ l.takeWhile (fun x => !pySpace x)) ::
        tokensAux (l.dropWhile (fun x => !pySpace x)) [] := by
  induction l generalizing cur h with
  | nil =>
      have hcur : cur.isEmpty = false := by
        cases cur with
        | nil => exact absurd rfl h
        | cons a b => rfl
      simp [tokensAux, hcur]
  | cons c rest ih =>
      have hcur : cur.isEmpty = false := by
        cases cur with
        | nil => exact absurd rfl h
        | cons a b => rfl
      by_cases hc : pySpace c
      · simp [tokensAux, hc, hcur]
      · have hcons : c :: cur ≠ [] := by simp
        have hstep : tokensAux (c :: rest) cur = tokensAux rest (c :: cur) := by
          simp [tokensAux, hc]
        rw [hstep, ih _ hcons]
        simp [hc, List.takeWhile_cons, List.dropWhile_cons]

theorem tokens_cons_space (c : Char) (rest : List Char) (h : pySpace c) :
    tokens (c :: rest) = tokens rest := by
  simp [tokens, tokensAux, h]

theorem tokens_cons_nonspace (c : Char) (rest : List Char) (h : ¬ pySpace c) :
    tokens (c :: rest) =
      (c :: rest.takeWhile (fun x => !pySpace x)) ::
        tokens (rest.dropWhile (fun x => !pySpace x)) := by
  simp [tokens, tokensAux, h, tokensAux_ne rest [c] (by simp)]

/-- Whether the list contains a `'@'` that is neither the first
character nor the last (used to characterise which whitespace-free runs
the pattern `[^\s]+@[^\s]+` accepts). -/
def hasAtLater : List Char → Bool
  | [] => false
  | c :: rest => (c = '@' && !rest.isEmpty) || hasAtLater rest

/-- A whitespace-free run matches `[^\s]+@[^\s]+` iff it has an interior
`'@'` (at least one character on each side). -/
def hasInteriorAt : List Char → Bool
  | [] => false
  | _ :: rest => hasAtLater rest

/-- Python `re.search(r'([^\s]+@[^\s]+)', s)`: with greedy backtracking the
leftmost match is the first whitespace-delimited token that has an
interior `'@'`, and the group is that whole token. -/
def firstAtToken (l : List Char) : Option (List Char) :=
  (tokens l).find? hasInteriorAt

/-- Python `re.search(r'<([^>]+)>', s)`: scan left to right for a `'<'` that is
followed by at least one non-`'>'` character and then a `'>'`; the group
is the (greedy) run of non-`'>'` characters after that `'<'`. -/
def angleGroup : List Char → Option (List Char)
  | [] => none
  | c :: rest =>
      if c = '<' then
        let pre := rest.takeWhile (fun x => x ≠ '>')
        if pre.isEmpty then angleGroup rest
        else if (rest.dropWhile (fun x => x ≠ '>')).isEmpty then angleGroup rest
        else some pre
      else angleGroup rest

/-- Function `_extract_clean_email` (`src/booking_agent.py:191-215`): empty input
gives `""`; else if the string contains both `'<'` and `'>'` and the
angle-bracket pattern matches, return the bracketed group; else if the
`[^\s]+@[^\s]+` pattern matches, return its group; else return the input
unchanged. -/
def extractCleanEmail (s : List Char) : List Char :=
  if s.isEmpty then []
  else
    match (if s.contains '<' ∧ s.contains '>' then angleGroup s else none) with
    | some g => g
    | none =>
        match firstAtToken s with
        | some t => t
        | none => s

example : extractCleanEmail "Name <a@b.com>".data = "a@b.com".data := by decide
example : extractCleanEmail "  a@b.com  ".data = "a@b.com".data := by decide
example : extractCleanEmail "a@ b@c".data = "b@c".data := by decide
example : extractCleanEmail "<>".data = "<>".data := by decide
example : extractCleanEmail "<a<b>".data = "a<b".data := by decide

/-! ## Parsed email record (`parse_email_from_s3`'s result shape) -/

/-- The dictionary produced by `parse_email_from_s3`
(`src/email_util.py:130-173`): address headers are comma-split lists of
raw address strings, all other headers default to the empty string. -/
structure ParsedEmail where
  subject : List Char := []
  body : List Char := []
  fromList : List (List Char) := []
  toAddrs : List (List Char) := []
  ccAddrs : List (List Char) := []
  bccAddrs : List (List Char) := []
  date : List Char := []
  message_id : List Char := []
  in_reply_to : List Char := []
  references : List Char := []
  return_path : List Char := []
deriving DecidableEq, Repr

/-! ## Reply-loop guard (`get_original_sender_from_email`, `should_reply_to_email`) -/

/-- The two regex attempts that `get_original_sender_from_email` makes on
one raw header value: `<([^>]+)>` first, then `([^\s]+@[^\s]+)`. -/
def senderFromRaw (s : List Char) : Option (List Char) :=
  match angleGroup s with
  | some g => some g
  | none => firstAtToken s

/-- Function `get_original_sender_from_email` (`src/email_util.py:222-253`): use
`Return-Path` when present (falling through to the `From` header when
neither regex matches it), else the first `From` address, else `""`. -/
def getOriginalSender (pe : ParsedEmail) : List Char :=
  match (if pe.return_path.isEmpty then none else senderFromRaw pe.return_path) with
  | some s => s
  | none =>
      match pe.fromList with
      | [] => []
      | f :: _ =>
          match senderFromRaw f with
          | some s => s
          | none => []

/-- Function `should_reply_to_email` (`src/email_util.py:256-265`): reply unless
the original sender equals the configured booking address
(case-insensitively). -/
def shouldReplyToEmail (bookingEmail : List Char) (pe : ParsedEmail) : Bool :=
  pyLower (getOriginalSender pe) ≠ pyLower bookingEmail

/-- The reply-loop guard predicate of the spec (`isLoopMessage`): the
message is a loop message exactly when `should_reply_to_email` refuses
it. -/
def isLoopMessage (bookingEmail : List Char) (pe : ParsedEmail) : Bool :=
  !shouldReplyToEmail bookingEmail pe

/-! ## Participant collection (`send_ai_response_to_thread`, lines 136-154) -/

/-- The `from`-address pass of `send_ai_response_to_thread`: append every
cleaned, non-empty address that differs (case-insensitively) from the
booking address.  Note: this pass performs no duplicate check. -/
def addSenders (bookingEmail : List Char) (acc : List (List Char)) :
    List (List Char) → List (List Char)
  | [] => acc
  | a :: rest =>
      let c := extractCleanEmail a
      if !c.isEmpty ∧ pyLower c ≠ pyLower bookingEmail then
        addSenders bookingEmail (acc ++ [c]) rest
      else addSenders bookingEmail acc rest

/-- The `to + cc` pass of `send_ai_response_to_thread`: as `addSenders`
but additionally skipping addresses already present (exact string
comparison). -/
def addRecipients (bookingEmail : List Char) (acc : List (List Char)) :
    List (List Char) → List (List Char)
  | [] => acc
  | a :: rest =>
      let c := extractCleanEmail a
      if !c.isEmpty ∧ pyLower c ≠ pyLower bookingEmail ∧ c ∉ acc then
        addRecipients bookingEmail (acc ++ [c]) rest
      else addRecipients bookingEmail acc rest

/-- The `all_participants` list computed by `send_ai_response_to_thread`
(`src/booking_agent.py:136-154`): cleaned `from` addresses first, then
cleaned `to + cc` addresses. -/
def collectParticipants (bookingEmail : List Char) (pe : ParsedEmail) :
    List (List Char) :=
  addRecipients bookingEmail (addSenders bookingEmail [] pe.fromList)
    (pe.toAddrs ++ pe.ccAddrs)

/-! ## Greeting directive (`send_ai_response_to_thread`, lines 120-133) -/

/-- Whether the run of non-whitespace characters at the head of `l`
matches `[^\s]+@[^\s]+` (greedily, to the end of the run). -/
def matchAtRun (l : List Char) : Option (List Char) :=
  let run := l.takeWhile (fun x => !pySpace x)
  if hasInteriorAt run then some run else none

/-- Whether the list starts with `TO:` (`T` and `O` case-insensitive,
`':'` literal) — the label part of the directive pattern. -/
def isTOColonAt : List Char → Bool
  | c :: o :: k :: _ =>
      (c = 'T' ∨ c = 't') ∧ (o = 'O' ∨ o = 'o') ∧ k = ':'
  | _ => false

/-- Python `re.search(r'TO:\s*([^\s]+@[^\s]+)', line, re.IGNORECASE)`: scan left
to right for `TO:` (case-insensitive), skip whitespace, and require a
whitespace-free run with an interior `'@'`; the group is that whole
run. -/
def toDirectiveSearch : List Char → Option (List Char)
  | [] => none
  | c :: rest =>
      if isTOColonAt (c :: rest) then
        match matchAtRun (((c :: rest).drop 3).dropWhile pySpace) with
        | some g => some g
        | none => toDirectiveSearch rest
      else toDirectiveSearch rest

/-- The `TO:` directive handling at the top of `send_ai_response_to_thread`
(`src/booking_agent.py:120-133`): returns the extracted greeting
recipient (if any) and the response body that will be sent.  The line is
removed only when the regex actually extracts an address. -/
def parseGreetingDirective (content : List Char) :
    Option (List Char) × List Char :=
  match splitNl (pyStrip content) with
  | [] => (none, content)
  | l0 :: restLines =>
      let t := pyStrip l0
      if List.isPrefixOf "TO:".data (pyUpper t) then
        match toDirectiveSearch t with
        | some g => (some g, pyStrip (joinNl restLines))
        | none => (none, content)
      else (none, content)

/-! ## Outbound send (`send_ai_response_to_thread`, lines 156-188) -/

/-- The arguments that `send_ai_response_to_thread` passes to
`send_email_via_ses`. -/
structure SendRequest where
  toRecipients : List (List Char)
  subject : List Char
  body : List Char
  reply_to_message_id : List Char
  reply_to_references : List Char
deriving DecidableEq, Repr

/-- Result of `send_ai_response_to_thread`: either the mail sender is
invoked with a `SendRequest` (transport modelled as succeeding), or the
participant list was empty and the function fails without sending. -/
inductive SendResult where
  | sent (req : SendRequest)
  | noRecipients
deriving DecidableEq, Repr

/-- Function `send_ai_response_to_thread` (`src/booking_agent.py:104-188`). -/
def sendAiResponseToThread (bookingEmail : List Char) (pe : ParsedEmail)
    (content : List Char) : SendResult :=
  let cleaned := (parseGreetingDirective content).2
  let participants := collectParticipants bookingEmail pe
  if participants.isEmpty then SendResult.noRecipients
  else
    let refs :=
      if !pe.message_id.isEmpty ∧ !pe.references.isEmpty then
        pe.references ++ ' ' :: pe.message_id
      else if !pe.message_id.isEmpty then pe.message_id
      else pe.references
    let subject :=
      if List.isPrefixOf "re:".data (pyLower pe.subject) then pe.subject
      else "Re: ".data ++ pe.subject
    SendResult.sent ⟨participants, subject, cleaned, pe.message_id, refs⟩

example :
    parseGreetingDirective "TO: alice@x.com\nHi Alice\nBy VibeCal".data =
      (some "alice@x.com".data, "Hi Alice\nBy VibeCal".data) := by decide

example :
    parseGreetingDirective "TO: bob\nHello".data =
      (none, "TO: bob\nHello".data) := by decide

example :
    collectParticipants "book@bhaang.com".data
      { fromList := ["a@x.com".data, "a@x.com".data] } =
      ["a@x.com".data, "a@x.com".data] := by decide

/-! ## The tool-calling loop (`process_email_with_ai`, `src/booking_agent.py:251-441`)

The OpenAI chat-completion provider is modelled as a script giving the
assistant response to the n-th API call; the three calendar tools are
modelled as functions that either return a result payload or raise
(`Except.error` standing for a Python exception). -/

/-- A tool call emitted by the model.  `arguments` is the result of
`json.loads(tool_call.function.arguments)`: `none` models an arguments
string that is not valid JSON (in which case `json.loads` raises), and
`some kvs` the decoded JSON object as a key/value mapping. -/
structure ToolCall where
  id : String
  name : String
  arguments : Option (List (String × String))
deriving DecidableEq, Repr

/-- Result content of one dispatched tool call: `payload` is the
`json.dumps` of a value the tool returned, `err` the structured
`{"error": msg}` object built for an unknown tool or a caught
exception. -/
inductive ToolResult where
  | payload (s : String)
  | err (msg : String)
deriving DecidableEq, Repr

/-- One entry of the `messages` list.  `assistant` models the OpenAI
message object (which has a `.content` attribute); `system`, `user` and
`tool` model the plain dicts the code appends (which have no `.content`
attribute). -/
inductive ChatMsg where
  | system (content : List Char)
  | user (content : List Char)
  | assistant (content : List Char) (tool_calls : List ToolCall)
  | tool (tool_call_id : String) (content : ToolResult)
deriving DecidableEq, Repr

/-- One scripted model response: text content plus requested tool
calls. -/
structure AResp where
  content : List Char
  tool_calls : List ToolCall
deriving Repr

/-- The three calendar tools of `src/clerk_util.py`, abstracted:
`Except.error m` models the tool raising an exception with message `m`
(caught by the per-call `try`), `Except.ok s` a returned value already
serialised by `json.dumps`. -/
structure ToolEnv where
  get_availability : String → String → String → Except String String
  book_event : String → String → String → String → String → String →
    Option String → String → Option String → Except String String
  cancel_event : String → String → Bool → Except String String

/-- The tool dispatch inside the per-call `try` block
(`src/booking_agent.py:342-378`): run the named tool on the decoded
arguments; any raised exception is caught and converted to
`{"error": str(e)}`, and an unknown tool name yields
`{"error": "Unknown tool: ..."}`. -/
def execTool (env : ToolEnv) (name : String)
    (args : List (String × String)) : ToolResult :=
  if name = "get_availability" then
    match args.lookup "owner_email", args.lookup "start_date",
        args.lookup "end_date" with
    | some o, some s, some e =>
        match env.get_availability o s e with
        | Except.ok p => ToolResult.payload p
        | Except.error m => ToolResult.err m
    | _, _, _ => ToolResult.err "KeyError"
  else if name = "book_event" then
    match args.lookup "owner_email", args.lookup "date",
        args.lookup "start_time", args.lookup "end_time",
        args.lookup "title" with
    | some o, some d, some st, some et, some ti =>
        match env.book_event o d st et ti
            ((args.lookup "description").getD "")
            (args.lookup "attendees")
            ((args.lookup "location").getD "")
            (args.lookup "reminders") with
        | Except.ok p => ToolResult.payload p
        | Except.error m => ToolResult.err m
    | _, _, _, _, _ => ToolResult.err "KeyError"
  else if name = "cancel_event" then
    match args.lookup "owner_email", args.lookup "event_id" with
    | some o, some ev =>
        match env.cancel_event o ev
            (((args.lookup "notify_attendees").map (fun s => decide (s ≠ "False"))).getD true) with
        | Except.ok p => ToolResult.payload p
        | Except.error m => ToolResult.err m
    | _, _ => ToolResult.err "KeyError"
  else ToolResult.err ("Unknown tool: " ++ name)

/-- The `for tool_call in assistant_message.tool_calls` loop
(`src/booking_agent.py:336-396`): each call's arguments string is decoded
by `json.loads` *outside* the `try` block, so an undecodable arguments
string raises out of the whole batch (`Except.error`); otherwise every
call appends exactly one tool message. -/
def dispatchBatch (env : ToolEnv) : List ToolCall → Except String (List ChatMsg)
  | [] => Except.ok []
  | tc :: rest =>
      match tc.arguments with
      | none => Except.error "json.loads: invalid tool arguments"
      | some args =>
          match dispatchBatch env rest with
          | Except.error e => Except.error e
          | Except.ok tail =>
              Except.ok (ChatMsg.tool tc.id (execTool env tc.name args) :: tail)

/-- The bounded tool-calling loop (`src/booking_agent.py:311-404`):
`fuel` counts the remaining iterations of `for iteration in range(5)`,
`calls` the model invocations made so far.  Returns the total number of
model invocations together with either the final `messages` list or the
exception that escaped the loop. -/
def agentLoop (script : Nat → AResp) (env : ToolEnv) :
    Nat → Nat → List ChatMsg → Nat × Except String (List ChatMsg)
  | 0, calls, msgs => (calls, Except.ok msgs)
  | fuel + 1, calls, msgs =>
      let r := script calls
      let msgs2 := msgs ++ [ChatMsg.assistant r.content r.tool_calls]
      if r.tool_calls.isEmpty then (calls + 1, Except.ok msgs2)
      else
        match dispatchBatch env r.tool_calls with
        | Except.error e => (calls + 1, Except.error e)
        | Except.ok tms => agentLoop script env fuel (calls + 1) (msgs2 ++ tms)

/-- Reading `messages[-1].content`: only the assistant message object has a
`.content` attribute; on any of the plain dicts the attribute access
raises `AttributeError` (modelled by `none`). -/
def lastContentAttr (msgs : List ChatMsg) : Option (List Char) :=
  match msgs.getLast? with
  | some (ChatMsg.assistant c _) => some c
  | _ => none

/-- Outcome of `process_email_with_ai`: `processed` is the success
return, `errorSend` the `action: error` return for a failed send, and
`pyError` the outer `except Exception` return whose `email_response` is
the canned apology text. -/
inductive Outcome where
  | processed (email_response : List Char) (req : SendRequest)
  | errorSend (err : List Char) (email_response : List Char)
  | pyError (err : List Char)
deriving DecidableEq, Repr

/-- Function `process_email_with_ai` (`src/booking_agent.py:251-441`), from the
point where the email has been parsed: run the tool-calling loop, read
`messages[-1].content`, and hand the final text to
`send_ai_response_to_thread`.  Note that no reply-loop guard is consulted
anywhere on this path.  Returns the number of chat-completion calls made
together with the outcome. -/
def processEmailWithAI (bookingEmail : List Char) (sysPrompt : List Char)
    (script : Nat → AResp) (env : ToolEnv) (pe : ParsedEmail) :
    Nat × Outcome :=
  let initMsgs := [ChatMsg.system sysPrompt, ChatMsg.user pe.subject]
  match agentLoop script env 5 0 initMsgs with
  | (calls, Except.error e) => (calls, Outcome.pyError e.data)
  | (calls, Except.ok msgs) =>
      match lastContentAttr msgs with
      | none =>
          (calls, Outcome.pyError
            "AttributeError: dict object has no attribute content".data)
      | some finalResponse =>
          match sendAiResponseToThread bookingEmail pe finalResponse with
          | SendResult.sent req => (calls, Outcome.processed finalResponse req)
          | SendResult.noRecipients =>
              (calls, Outcome.errorSend
                "No valid recipients found (all participants are booking email)".data
                finalResponse)

/-! ## Calendar gateway dates and timezones (`src/clerk_util.py`) -/

/-- Gregorian leap-year rule (as used by Python `datetime`). -/
def isLeapYear (y : Nat) : Bool :=
  y % 4 = 0 && (y % 100 ≠ 0 || y % 400 = 0)

/-- Days in a month of the (proleptic) Gregorian calendar. -/
def daysInMonth (y m : Nat) : Nat :=
  match m with
  | 1 => 31
  | 2 => if isLeapYear y then 29 else 28
  | 3 => 31
  | 4 => 30
  | 5 => 31
  | 6 => 30
  | 7 => 31
  | 8 => 31
  | 9 => 30
  | 10 => 31
  | 11 => 30
  | 12 => 31
  | _ => 0

/-- A calendar date. -/
structure Date where
  year : Nat
  month : Nat
  day : Nat
deriving DecidableEq, Repr

/-- The validity conditions that `datetime.strptime` enforces
(`datetime.MINYEAR = 1`, `MAXYEAR = 9999`). -/
def validDate (d : Date) : Bool :=
  1 ≤ d.year && d.year ≤ 9999 && 1 ≤ d.month && d.month ≤ 12 &&
    1 ≤ d.day && d.day ≤ daysInMonth d.year d.month

/-- Days of completed years before year `y` (counted from 0001-01-01). -/
def daysBeforeYear (y : Nat) : Nat :=
  (y - 1) * 365 + (y - 1) / 4 + (y - 1) / 400 - (y - 1) / 100

/-- Days of completed months of year `y` before month `m`. -/
def daysBeforeMonth (y m : Nat) : Nat :=
  ((List.range (m - 1)).map (fun i => daysInMonth y (i + 1))).sum

/-- Rata-die day number: `rataDie ⟨1,1,1⟩ = 1`. -/
def rataDie (d : Date) : Nat :=
  daysBeforeYear d.year + daysBeforeMonth d.year d.month + d.day

/-- Python `date + timedelta(days=1)` on valid dates. -/
def nextDay (d : Date) : Date :=
  if d.day < daysInMonth d.year d.month then ⟨d.year, d.month, d.day + 1⟩
  else if d.month < 12 then ⟨d.year, d.month + 1, 1⟩
  else ⟨d.year + 1, 1, 1⟩

/-- Decimal digit of a character, if any. -/
def digitVal (c : Char) : Option Nat :=
  if c.isDigit then some (c.toNat - 48) else none

/-- Python `datetime.strptime(s, "%Y-%m-%d")`: exactly `dddd-dd-dd`, with the
resulting date validated by the `datetime` constructor. -/
def parseDate (s : List Char) : Option Date :=
  match s with
  | [y1, y2, y3, y4, '-', m1, m2, '-', d1, d2] =>
      match digitVal y1, digitVal y2, digitVal y3, digitVal y4,
          digitVal m1, digitVal m2, digitVal d1, digitVal d2 with
      | some a, some b, some c, some d, some e, some f, some g, some h =>
          let dt : Date := ⟨a * 1000 + b * 100 + c * 10 + d, e * 10 + f, g * 10 + h⟩
          if validDate dt then some dt else none
      | _, _, _, _, _, _, _, _ => none
  | _ => none

/-- An instant of UTC time, at minute granularity, counted in minutes
from 0001-01-01T00:00:00Z. -/
def utcMinutes (d : Date) (hour minute : Nat) : Int :=
  ((rataDie d - 1) * 1440 + hour * 60 + minute : Nat)

/-- The `timeMin`/`timeMax` instants that `get_availability_low_level`
(`src/clerk_util.py:162-196`) sends to the calendar events query: the
start date at 00:00:00 with `tzinfo=timezone.utc`, and the end date plus
`timedelta(days=1)` at 00:00:00 UTC. -/
def getAvailabilityQueryRange (startDate endDate : List Char) :
    Option (Int × Int) := do
  let d1 ← parseDate startDate
  let d2 ← parseDate endDate
  return (utcMinutes d1 0 0, utcMinutes (nextDay d2) 0 0)

/-! ### Timezone model

`pytz` is an external library; its behaviour on the zones this
development needs is modelled from the tz database: `America/New_York`
follows the post-2007 US rule (daylight saving from 02:00 local on the
second Sunday of March until 02:00 local on the first Sunday of
November; UTC-4 during daylight saving, UTC-5 otherwise). -/

/-- Day of month of the first Sunday of month `m` of year `y`
(`rataDie % 7 = 0` is a Sunday: rata die 1 = 0001-01-01 was a Monday). -/
def firstSundayOfMonth (y m : Nat) : Nat :=
  1 + (7 - rataDie ⟨y, m, 1⟩ % 7) % 7

/-- Whether a local wall-clock instant falls in US eastern daylight
saving time. -/
def nyInDst (d : Date) (minuteOfDay : Nat) : Bool :=
  let localMin := (rataDie d - 1) * 1440 + minuteOfDay
  let dstStart := (rataDie ⟨d.year, 3, firstSundayOfMonth d.year 3 + 7⟩ - 1) * 1440 + 120
  let dstEnd := (rataDie ⟨d.year, 11, firstSundayOfMonth d.year 11⟩ - 1) * 1440 + 120
  dstStart ≤ localMin && localMin < dstEnd

/-- UTC offset in minutes that `pytz.timezone(tz).localize(dt)` attaches
to a naive local datetime, for the zones this development needs;
`none` models an unknown zone (where `pytz` raises). -/
def tzUtcOffsetMinutes (tz : String) (d : Date) (minuteOfDay : Nat) : Option Int :=
  if tz = "UTC" then some 0
  else if tz = "America/New_York" then
    some (if nyInDst d minuteOfDay then -240 else -300)
  else none

example : firstSundayOfMonth 2024 3 + 7 = 10 := by decide
example : nyInDst ⟨2024, 6, 1⟩ 840 = true := by decide
example : nyInDst ⟨2024, 1, 15⟩ 840 = false := by decide

/-- Hours and minutes. -/
structure TimeHM where
  hour : Nat
  minute : Nat
deriving DecidableEq, Repr

/-- Python `datetime.strptime(f"{date}T{time}:00", "%Y-%m-%dT%H:%M:%S")` as
performed by `book_event_low_level`: the date part and the `HH:MM` time
part (seconds are always the appended `"00"`). -/
def parseDateTimeHM (dateStr timeStr : List Char) : Option (Date × TimeHM) := do
  let d ← parseDate dateStr
  match timeStr with
  | [h1, h2, ':', m1, m2] => do
      let a ← digitVal h1
      let b ← digitVal h2
      let c ← digitVal m1
      let e ← digitVal m2
      let t : TimeHM := ⟨a * 10 + b, c * 10 + e⟩
      if t.hour ≤ 23 && t.minute ≤ 59 then some (d, t) else none
  | _ => none

/-- The owner's calendar state on the provider side, as the gateway sees
it: whether an OAuth token can be fetched, and the calendar timezone
returned by `get_user_timezone_low_level`. -/
structure ProviderState where
  hasOauthToken : Bool
  calendarTimezone : String

/-- The UTC start/end instants (minutes from the epoch of `utcMinutes`)
that `book_event_low_level` (`src/clerk_util.py:269-304`) sends to the
provider: the wall-clock `HH:MM` strings are parsed together with the
date, localized in the owner's calendar timezone as fetched from the
provider, and converted to UTC. -/
def bookEventUtcInstants (provider : ProviderState) (dateStr startTime endTime : List Char) :
    Option (Int × Int) := do
  if provider.hasOauthToken then
    let tz := provider.calendarTimezone
    let (d1, t1) ← parseDateTimeHM dateStr startTime
    let (d2, t2) ← parseDateTimeHM dateStr endTime
    let off1 ← tzUtcOffsetMinutes tz d1 (t1.hour * 60 + t1.minute)
    let off2 ← tzUtcOffsetMinutes tz d2 (t2.hour * 60 + t2.minute)
    return (utcMinutes d1 t1.hour t1.minute - off1,
            utcMinutes d2 t2.hour t2.minute - off2)
  else none

/-! ## Email parsing (`parse_email_from_s3`, `src/email_util.py:130-173`)

The Python standard library's `email.message_from_string` is external
code; it is lenient and total — any input string yields a `Message`
object (possibly with defects recorded), so the `Message` tree is taken
as the input domain here.  A payload becomes a list of sub-parts only
for `multipart/*` content types, which the model builds in. -/

/-- A parsed MIME part: either a leaf with a declared content type and a
raw byte payload, or a `multipart/<subtype>` container. -/
inductive MimePart where
  | leaf (ctype : List Char) (payload : List Nat)
  | multi (subtype : List Char) (parts : List MimePart)

/-- Python `Message.get_content_type()`. -/
def ctypeOf : MimePart → List Char
  | MimePart.leaf ct _ => ct
  | MimePart.multi st _ => "multipart/".data ++ st

/-- Python `Message.is_multipart()` (true iff the payload is a list of parts). -/
def isMultipart : MimePart → Bool
  | MimePart.leaf _ _ => false
  | MimePart.multi _ _ => true

mutual

/-- Python `Message.walk()`: the part itself, then its sub-parts, depth first. -/
def walkPart : MimePart → List MimePart
  | MimePart.leaf ct pl => [MimePart.leaf ct pl]
  | MimePart.multi st ps => MimePart.multi st ps :: walkParts ps

/-- Walking over a list of sibling parts. -/
def walkParts : List MimePart → List MimePart
  | [] => []
  | p :: ps => walkPart p ++ walkParts ps

end

/-- Python `Message.get_payload(decode=True)`: `None` for a multipart payload,
the (transfer-decoded) bytes for a leaf. -/
def getPayloadDecoded : MimePart → Option (List Nat)
  | MimePart.leaf _ pl => some pl
  | MimePart.multi _ _ => none

/-- Fuel-indexed worker for `utf8DecodeIgnore` (the fuel dominates the
list length, so it never runs out). -/
def utf8DecodeIgnoreAux : Nat → List Nat → List Char
  | 0, _ => []
  | _ + 1, [] => []
  | fuel + 1, b :: rest =>
      if b < 0x80 then Char.ofNat b :: utf8DecodeIgnoreAux fuel rest
      else if 0xC2 ≤ b ∧ b ≤ 0xDF then
        match rest with
        | b2 :: rest2 =>
            if 0x80 ≤ b2 ∧ b2 ≤ 0xBF then
              Char.ofNat ((b % 0x20) * 64 + b2 % 0x40) :: utf8DecodeIgnoreAux fuel rest2
            else utf8DecodeIgnoreAux fuel rest
        | [] => []
      else if 0xE0 ≤ b ∧ b ≤ 0xEF then
        match rest with
        | b2 :: b3 :: rest3 =>
            if (0x80 ≤ b2 ∧ b2 ≤ 0xBF) ∧ (0x80 ≤ b3 ∧ b3 ≤ 0xBF) then
              Char.ofNat ((b % 0x10) * 4096 + (b2 % 0x40) * 64 + b3 % 0x40) ::
                utf8DecodeIgnoreAux fuel rest3
            else utf8DecodeIgnoreAux fuel rest
        | _ => utf8DecodeIgnoreAux fuel rest
      else utf8DecodeIgnoreAux fuel rest

/-- Python `bytes.decode('utf-8', errors='ignore')`: total UTF-8 decoding that
skips undecodable bytes (surrogate and out-of-range code points are
mapped to `Char.ofNat`'s fallback — the relevant property is totality). -/
def utf8DecodeIgnore (l : List Nat) : List Char :=
  utf8DecodeIgnoreAux l.length l

/-- A whole parsed message: top-level headers plus the part tree. -/
structure PyMessage where
  headers : List (List Char × List Char)
  root : MimePart

/-- Python `Message.get(name, '')`: case-insensitive header lookup with a
default. -/
def getHeader (m : PyMessage) (name : List Char) : List Char :=
  match m.headers.find? (fun kv => pyLower kv.1 = pyLower name) with
  | some kv => kv.2
  | none => []

/-- Python `addr_string.split(',')` with each piece `.strip()`-ped, returning
`[]` for an absent header (`parse_addresses`,
`src/email_util.py:154-159`). -/
def parseAddresses (s : List Char) : List (List Char) :=
  if s.isEmpty then []
  else (splitOnComma s).map pyStrip
where
  /-- Python `str.split(',')`. -/
  splitOnComma : List Char → List (List Char)
  | [] => [[]]
  | c :: rest =>
      match splitOnComma rest with
      | [] => if c = ',' then [[], []] else [[c]]
      | first :: more =>
          if c = ',' then [] :: first :: more else (c :: first) :: more

/-- Function `parse_email_from_s3` (`src/email_util.py:130-173`) over an
already-parsed `Message`: extract the body (first `text/plain` part of a
multipart message, else the decoded payload) and the headers.
`Except.error` models an uncaught Python exception: the only candidate
on this path is `None.decode(...)` if `get_payload(decode=True)`
returned `None`. -/
def parseEmailFromS3 (m : PyMessage) : Except String ParsedEmail :=
  let bodyStep : Except String (List Char) :=
    if isMultipart m.root then
      match (walkPart m.root).find? (fun p => ctypeOf p = "text/plain".data) with
      | some p =>
          match getPayloadDecoded p with
          | some bytes => Except.ok (utf8DecodeIgnore bytes)
          | none => Except.error "AttributeError: NoneType has no attribute decode"
      | none => Except.ok []
    else
      match getPayloadDecoded m.root with
      | some bytes => Except.ok (utf8DecodeIgnore bytes)
      | none => Except.error "AttributeError: NoneType has no attribute decode"
  match bodyStep with
  | Except.error e => Except.error e
  | Except.ok body =>
      Except.ok
        { subject := getHeader m "Subject".data
          body := body
          fromList := parseAddresses (getHeader m "From".data)
          toAddrs := parseAddresses (getHeader m "To".data)
          ccAddrs := parseAddresses (getHeader m "Cc".data)
          bccAddrs := parseAddresses (getHeader m "Bcc".data)
          date := getHeader m "Date".data
          message_id := getHeader m "Message-ID".data
          in_reply_to := getHeader m "In-Reply-To".data
          references := getHeader m "References".data
          return_path := getHeader m "Return-Path".data }

/-! ## Calendar arithmetic lemmas -/

theorem parseDate_valid {s : List Char} {d : Date} (h : parseDate s = some d) :
    validDate d = true := by
  unfold parseDate at h
  split at h
  · split at h
    · dsimp only at h
      split at h
      · cases h
        assumption
      · cases h
    · cases h
  · cases h

theorem daysBeforeMonth_succ (y m : Nat) (hm : 1 ≤ m) :
    daysBeforeMonth y (m + 1) = daysBeforeMonth y m + daysInMonth y m := by
  unfold daysBeforeMonth
  have h1 : m + 1 - 1 = (m - 1) + 1 := by omega
  rw [h1, List.range_succ]
  simp
  congr 1
  omega

theorem daysBeforeMonth_twelve (y : Nat) :
    daysBeforeMonth y 12 = 334 + (if isLeapYear y then 1 else 0) := by
  have hr : List.range (12 - 1) = [0, 1, 2, 3, 4, 5, 6, 7, 8, 9, 10] := by decide
  unfold daysBeforeMonth
  rw [hr]
  simp only [List.map_cons, List.map_nil, List.sum_cons, List.sum_nil]
  norm_num [daysInMonth]
  by_cases h : isLeapYear y <;> simp [h]

set_option maxHeartbeats 1000000 in
theorem daysBeforeYear_succ (y : Nat) (hy : 1 ≤ y) :
    daysBeforeYear (y + 1) =
      daysBeforeYear y + 365 + (if isLeapYear y then 1 else 0) := by
  unfold daysBeforeYear
  by_cases h : isLeapYear y
  · rw [if_pos h]
    simp only [isLeapYear, Bool.and_eq_true, decide_eq_true_eq, Bool.or_eq_true,
      bne_iff_ne, ne_eq] at h
    omega
  · rw [if_neg h]
    simp only [isLeapYear, Bool.and_eq_true, decide_eq_true_eq, Bool.or_eq_true,
      bne_iff_ne, ne_eq] at h
    push_neg at h
    omega

/-- One day forward moves the rata-die day number up by exactly one, on
any valid date (the correctness of `nextDay` as `timedelta(days=1)`). -/
theorem rataDie_nextDay (d : Date) (h : validDate d = true) :
    rataDie (nextDay d) = rataDie d + 1 := by
  obtain ⟨y, m, dd⟩ := d
  simp only [validDate, Bool.and_eq_true, decide_eq_true_eq] at h
  obtain ⟨⟨⟨⟨⟨h1, h2⟩, h3⟩, h4⟩, h5⟩, h6⟩ := h
  unfold nextDay
  dsimp only
  split
  · simp only [rataDie]
    omega
  · split
    · rename_i hlt hm
      have hdd : dd = daysInMonth y m := by
        simp only [not_lt] at hlt
        omega
      simp only [rataDie]
      rw [daysBeforeMonth_succ y m h3]
      omega
    · rename_i hlt hm
      have hm12 : m = 12 := by omega
      subst hm12
      have hd12 : daysInMonth y 12 = 31 := rfl
      have hdd : dd = 31 := by
        simp only [not_lt] at hlt
        omega
      subst hdd
      simp only [rataDie]
      rw [daysBeforeYear_succ y h1, daysBeforeMonth_twelve y]
      have hz : daysBeforeMonth (y + 1) 1 = 0 := by
        unfold daysBeforeMonth
        simp
      rw [hz]
      by_cases hly : isLeapYear y <;> simp [hly]

/-- Every valid date has a positive rata-die number. -/
theorem rataDie_pos (d : Date) (h : validDate d = true) : 1 ≤ rataDie d := by
  simp only [validDate, Bool.and_eq_true, decide_eq_true_eq] at h
  unfold rataDie
  omega

/-- C6: for every pair of parseable calendar dates, the availability
query covers the half-open UTC range from the start date at 00:00 UTC to
the day after the end date at 00:00 UTC — one full day (1440 minutes)
past the end date's midnight. -/
theorem getAvailability_halfOpen_range (sd ed : List Char) (d1 d2 : Date)
    (h1 : parseDate sd = some d1) (h2 : parseDate ed = some d2) :
    getAvailabilityQueryRange sd ed =
      some (utcMinutes d1 0 0, utcMinutes (nextDay d2) 0 0) ∧
    utcMinutes (nextDay d2) 0 0 = utcMinutes d2 0 0 + 1440 := by
  constructor
  · simp [getAvailabilityQueryRange, h1, h2]
  · have hv := parseDate_valid h2
    have hr := rataDie_nextDay d2 hv
    have hp := rataDie_pos d2 hv
    simp only [utcMinutes]
    omega

/-- Witness for C6 at the claim's concrete dates: the queried range is
`[2024-01-01T00:00Z, 2024-01-04T00:00Z)`. -/
theorem getAvailability_halfOpen_range_witness :
    parseDate "2024-01-01".data = some ⟨2024, 1, 1⟩ ∧
    parseDate "2024-01-03".data = some ⟨2024, 1, 3⟩ ∧
    (getAvailabilityQueryRange "2024-01-01".data "2024-01-03".data =
        some (utcMinutes ⟨2024, 1, 1⟩ 0 0, utcMinutes (nextDay ⟨2024, 1, 3⟩) 0 0) ∧
      utcMinutes (nextDay ⟨2024, 1, 3⟩) 0 0 = utcMinutes ⟨2024, 1, 3⟩ 0 0 + 1440) ∧
    nextDay ⟨2024, 1, 3⟩ = ⟨2024, 1, 4⟩ :=
  ⟨by decide, by decide,
    getAvailability_halfOpen_range _ _ _ _ (by decide) (by decide), by decide⟩

/-- C7: `book_event_low_level` interprets `start_time`/`end_time` as
wall-clock `HH:MM` on the given date in the owner's calendar timezone as
fetched from the provider, and sends the corresponding UTC instants; for
a New-York owner during daylight saving time the conversion adds 4 hours
(240 minutes). -/
theorem bookEvent_wallclock_to_utc (p : ProviderState)
    (dateStr st et : List Char) (d1 d2 : Date) (t1 t2 : TimeHM)
    (hp : p.hasOauthToken = true)
    (htz : p.calendarTimezone = "America/New_York")
    (h1 : parseDateTimeHM dateStr st = some (d1, t1))
    (h2 : parseDateTimeHM dateStr et = some (d2, t2))
    (hd1 : nyInDst d1 (t1.hour * 60 + t1.minute) = true)
    (hd2 : nyInDst d2 (t2.hour * 60 + t2.minute) = true) :
    bookEventUtcInstants p dateStr st et =
      some (utcMinutes d1 t1.hour t1.minute + 240,
            utcMinutes d2 t2.hour t2.minute + 240) := by
  have hoff : ∀ (d : Date) (mo : Nat),
      tzUtcOffsetMinutes "America/New_York" d mo =
        some (if nyInDst d mo then -240 else -300) := fun d mo => rfl
  simp only [bookEventUtcInstants, hp, htz, h1, h2, if_true, hoff, hd1, hd2,
    Option.bind_eq_bind, Option.some_bind]
  simp only [Option.pure_def, Int.sub_neg]

/-- Witness for C7 at the claim's concrete input: owner timezone
`America/New_York`, date 2024-06-01, 14:00–15:00 wall clock → the
provider receives the instants 18:00 and 19:00 UTC. -/
theorem bookEvent_wallclock_to_utc_witness :
    parseDateTimeHM "2024-06-01".data "14:00".data = some (⟨2024, 6, 1⟩, ⟨14, 0⟩) ∧
    parseDateTimeHM "2024-06-01".data "15:00".data = some (⟨2024, 6, 1⟩, ⟨15, 0⟩) ∧
    nyInDst ⟨2024, 6, 1⟩ (14 * 60 + 0) = true ∧
    bookEventUtcInstants ⟨true, "America/New_York"⟩ "2024-06-01".data
        "14:00".data "15:00".data =
      some (utcMinutes ⟨2024, 6, 1⟩ 18 0, utcMinutes ⟨2024, 6, 1⟩ 19 0) := by
  refine ⟨by decide, by decide, by decide, ?_⟩
  rw [bookEvent_wallclock_to_utc ⟨true, "America/New_York"⟩ "2024-06-01".data
    "14:00".data "15:00".data ⟨2024, 6, 1⟩ ⟨2024, 6, 1⟩ ⟨14, 0⟩ ⟨15, 0⟩ rfl rfl
    (by decide) (by decide) (by decide) (by decide)]
  decide

/-! ## Loop theorems: concrete scripts and environments -/

/-- A scripted model that requests a tool call on every round trip. -/
def scriptAlwaysTools : Nat → AResp := fun _ =>
  ⟨"checking the calendar".data,
    [⟨"call-1", "get_availability",
      some [("owner_email", "a@x.com"), ("start_date", "2024-01-01"),
            ("end_date", "2024-01-02")]⟩]⟩

/-- A scripted model that immediately produces a final reply with no
tool calls. -/
def scriptImmediateReply : Nat → AResp := fun _ =>
  ⟨"TO: alice@x.com\nHi Alice\nBy VibeCal".data, []⟩

/-- A tool environment whose calendar calls all succeed with an empty
payload. -/
def envStub : ToolEnv where
  get_availability := fun _ _ _ => Except.ok "null"
  book_event := fun _ _ _ _ _ _ _ _ _ => Except.ok "null"
  cancel_event := fun _ _ _ => Except.ok "null"

/-- An inbound email whose sole `from` address (and `Return-Path`) is
the assistant's configured address. -/
def peFromAssistant : ParsedEmail :=
  { subject := "Meet".data
    fromList := ["book@bhaang.com".data]
    toAddrs := ["alice@x.com".data]
    message_id := "<m1@mail>".data
    return_path := "<book@bhaang.com>".data }

/-- In every branch, the model-call counter of `agentLoop` is bounded by
the remaining fuel. -/
theorem agentLoop_calls_le (script : Nat → AResp) (env : ToolEnv) :
    ∀ (fuel calls : Nat) (msgs : List ChatMsg),
      (agentLoop script env fuel calls msgs).1 ≤ calls + fuel := by
  intro fuel
  induction fuel with
  | zero =>
      intro calls msgs
      simp [agentLoop]
  | succ n ih =>
      intro calls msgs
      unfold agentLoop
      dsimp only
      split
      · simp
      · split
        · simp
        · exact le_trans (ih _ _) (by omega)

/-- C3: the tool-calling loop performs at most 5 model round trips for
every script, environment and email; but when all 5 responses request
tool calls, reading `messages[-1].content` hits the tool-result dict and
raises `AttributeError`, so the pipeline returns the outer-except error
outcome (with the canned apology), not the last assistant message. -/
theorem toolLoop_bound_and_exhaust :
    (∀ (bookingEmail sysPrompt : List Char) (script : Nat → AResp)
        (env : ToolEnv) (pe : ParsedEmail),
        (processEmailWithAI bookingEmail sysPrompt script env pe).1 ≤ 5) ∧
    processEmailWithAI "book@bhaang.com".data [] scriptAlwaysTools envStub {} =
      (5, Outcome.pyError
        "AttributeError: dict object has no attribute content".data) := by
  constructor
  · intro b sp script env pe
    have h := agentLoop_calls_le script env 5 0
      [ChatMsg.system sp, ChatMsg.user pe.subject]
    unfold processEmailWithAI
    dsimp only
    split
    · rename_i calls e heq
      rw [heq] at h
      simpa using h
    · rename_i calls msgs heq
      rw [heq] at h
      split
      · simpa using h
      · split <;> simpa using h
  · decide

/-- C2: on an inbound email whose sole `from` address (confirmed by
`Return-Path`) is the assistant's own address — which the guard
`should_reply_to_email` would classify as a loop message — the AI
pipeline `process_email_with_ai` still makes a model call and still
invokes the mail sender: no loop guard runs on this path. -/
theorem assistantSender_still_invokes_model :
    isLoopMessage "book@bhaang.com".data peFromAssistant = true ∧
    processEmailWithAI "book@bhaang.com".data [] scriptImmediateReply envStub
        peFromAssistant =
      (1, Outcome.processed "TO: alice@x.com\nHi Alice\nBy VibeCal".data
        ⟨["alice@x.com".data], "Re: Meet".data, "Hi Alice\nBy VibeCal".data,
          "<m1@mail>".data, "<m1@mail>".data⟩) := by
  constructor
  · decide
  · decide

/-! ## Clean-address extraction: general lemmas and C5 -/

theorem takeWhile_append_all (p : Char → Bool) (a l : List Char)
    (h : ∀ c ∈ a, p c = true) :
    (a ++ l).takeWhile p = a ++ l.takeWhile p := by
  induction a with
  | nil => simp
  | cons c rest ih =>
      simp only [List.cons_append, List.takeWhile_cons, h c (by simp), if_true]
      rw [ih (fun x hx => h x (by simp [hx]))]

theorem dropWhile_append_all (p : Char → Bool) (a l : List Char)
    (h : ∀ c ∈ a, p c = true) :
    (a ++ l).dropWhile p = l.dropWhile p := by
  induction a with
  | nil => simp
  | cons c rest ih =>
      simp only [List.cons_append, List.dropWhile_cons, h c (by simp), if_true]
      exact ih (fun x hx => h x (by simp [hx]))

theorem takeWhile_nil_of_all_neg (p : Char → Bool) (l : List Char)
    (h : ∀ c ∈ l, p c = false) : l.takeWhile p = [] := by
  cases l with
  | nil => rfl
  | cons c rest => simp [List.takeWhile_cons, h c (by simp)]

theorem dropWhile_id_of_all_neg (p : Char → Bool) (l : List Char)
    (h : ∀ c ∈ l, p c = false) : l.dropWhile p = l := by
  cases l with
  | nil => rfl
  | cons c rest => simp [List.dropWhile_cons, h c (by simp)]

theorem tokens_all_space (l : List Char) (h : ∀ c ∈ l, pySpace c = true) :
    tokens l = [] := by
  induction l with
  | nil => rfl
  | cons c rest ih =>
      rw [tokens_cons_space c rest (h c (by simp))]
      exact ih (fun x hx => h x (by simp [hx]))

theorem tokens_space_append (sp l : List Char)
    (h : ∀ c ∈ sp, pySpace c = true) : tokens (sp ++ l) = tokens l := by
  induction sp with
  | nil => simp
  | cons c rest ih =>
      rw [List.cons_append, tokens_cons_space c _ (h c (by simp))]
      exact ih (fun x hx => h x (by simp [hx]))

/-- The tokens of `sp1 ++ a ++ sp2`, where `a` is a nonempty
whitespace-free run and `sp1`, `sp2` are whitespace, are exactly `[a]`. -/
theorem tokens_single_run (sp1 sp2 a : List Char)
    (h1 : ∀ c ∈ sp1, pySpace c = true) (h2 : ∀ c ∈ sp2, pySpace c = true)
    (ha : a ≠ []) (hna : ∀ c ∈ a, pySpace c = false) :
    tokens (sp1 ++ a ++ sp2) = [a] := by
  rw [List.append_assoc, tokens_space_append sp1 (a ++ sp2) h1]
  cases a with
  | nil => exact absurd rfl ha
  | cons c rest =>
      rw [List.cons_append,
        tokens_cons_nonspace c (rest ++ sp2)
          (by simp [hna c (by simp)])]
      rw [takeWhile_append_all _ rest sp2
          (fun x hx => by simp [hna x (by simp [hx])]),
        dropWhile_append_all _ rest sp2
          (fun x hx => by simp [hna x (by simp [hx])]),
        takeWhile_nil_of_all_neg _ sp2 (fun x hx => by simp [h2 x hx]),
        dropWhile_id_of_all_neg _ sp2 (fun x hx => by simp [h2 x hx])]
      rw [tokens_all_space sp2 h2]
      simp

theorem angleGroup_no_angle (l : List Char) (h : '<' ∉ l) :
    angleGroup l = none := by
  induction l with
  | nil => rfl
  | cons c rest ih =>
      unfold angleGroup
      rw [if_neg (by intro hc; exact h (by simp [hc]))]
      exact ih (by intro hc; exact h (by simp [hc]))

/-- Evaluating `angleGroup` on `name ++ "<" ++ a ++ ">"` where `name` contains no
angle brackets and `a` is nonempty without `'>'`. -/
theorem angleGroup_wrapped (name a : List Char)
    (hn : '<' ∉ name) (ha : a ≠ []) (hagt : '>' ∉ a) :
    angleGroup (name ++ '<' :: (a ++ ['>'])) = some a := by
  induction name with
  | nil =>
      simp only [List.nil_append]
      unfold angleGroup
      rw [if_pos rfl]
      rw [takeWhile_append_all _ a ['>']
        (fun c hc => by
          simp only [decide_eq_true_eq]
          intro heq
          exact hagt (heq ▸ hc))]
      rw [dropWhile_append_all _ a ['>']
        (fun c hc => by
          simp only [decide_eq_true_eq]
          intro heq
          exact hagt (heq ▸ hc))]
      simp [List.takeWhile_cons, List.dropWhile_cons, ha]
  | cons c rest ih =>
      simp only [List.cons_append]
      unfold angleGroup
      rw [if_neg (by intro hc; exact hn (by simp [hc]))]
      exact ih (by intro hc; exact hn (by simp [hc]))

/-- The spec's extraction rule (2) exactly as worded: the first
whitespace-delimited token containing `'@'` anywhere. -/
def specFirstTokenWithAt (s : List Char) : Option (List Char) :=
  (tokens s).find? (fun t => t.contains '@')

/-- C5 counterexample: on `"a@ b@c"` the spec's rule (2) selects the
first token `"a@"`, but `_extract_clean_email` returns `"b@c"` (the
regex `[^\s]+@[^\s]+` needs a character on both sides of the `'@'`). -/
theorem extractCleanEmail_counterexample :
    specFirstTokenWithAt "a@ b@c".data = some "a@".data ∧
    extractCleanEmail "a@ b@c".data = "b@c".data ∧
    "b@c".data ≠ "a@".data := by
  refine ⟨by decide, by decide, by decide⟩

/-- C5 (amended): (1) for a string `name<addr>` whose name part has no
angle brackets and whose bracketed part is nonempty,
`_extract_clean_email` returns exactly the bracketed address; (2) for a
whitespace-free token with an interior `'@'` surrounded by arbitrary
whitespace, it returns the trimmed token (so a bare address is returned
unchanged).  Rule (2) requires at least one non-whitespace character on
each side of an `'@'`, not merely a token containing `'@'`. -/
theorem extractCleanEmail_spec :
    (∀ (name a : List Char), '<' ∉ name → '>' ∉ name → a ≠ [] → '>' ∉ a →
      extractCleanEmail (name ++ '<' :: (a ++ ['>'])) = a) ∧
    (∀ (sp1 sp2 a : List Char),
      (∀ c ∈ sp1, pySpace c = true) → (∀ c ∈ sp2, pySpace c = true) →
      a ≠ [] → (∀ c ∈ a, pySpace c = false) → '<' ∉ a →
      hasInteriorAt a = true →
      extractCleanEmail (sp1 ++ a ++ sp2) = a) := by
  constructor
  · intro name a hn1 hn2 ha hagt
    have hlt : (name ++ '<' :: (a ++ ['>'])).contains '<' = true := by
      simp
    have hgt : (name ++ '<' :: (a ++ ['>'])).contains '>' = true := by
      simp
    have hne : (name ++ '<' :: (a ++ ['>'])).isEmpty = false := by
      cases name <;> rfl
    unfold extractCleanEmail
    rw [hne]
    simp only [Bool.false_eq_true, if_false, hlt, hgt, and_self, if_true,
      angleGroup_wrapped name a hn1 ha hagt]
  · intro sp1 sp2 a h1 h2 ha hna hlt hint
    have hmem : '<' ∉ sp1 ++ a ++ sp2 := by
      simp only [List.mem_append]
      push_neg
      refine ⟨⟨fun hc => ?_, hlt⟩, fun hc => ?_⟩
      · have := h1 '<' hc
        simp [pySpace] at this
      · have := h2 '<' hc
        simp [pySpace] at this
    have hcont : (sp1 ++ a ++ sp2).contains '<' = false := by
      simpa using hmem
    have hne : (sp1 ++ a ++ sp2).isEmpty = false := by
      cases a with
      | nil => exact absurd rfl ha
      | cons c rest =>
          have : c ∈ sp1 ++ (c :: rest) ++ sp2 := by simp
          cases hall : (sp1 ++ (c :: rest) ++ sp2) with
          | nil => rw [hall] at this; cases this
          | cons x xs => rfl
    have hft : firstAtToken (sp1 ++ a ++ sp2) = some a := by
      unfold firstAtToken
      rw [tokens_single_run sp1 sp2 a h1 h2 ha hna]
      simp [List.find?_cons_of_pos, hint]
    unfold extractCleanEmail
    rw [hne]
    simp only [Bool.false_eq_true, if_false, hcont, false_and, hft]

/-- Witness for C5's amended theorem: `"Name <a@b.com>"` yields
`a@b.com`, and `"  a@b.com  "` yields the trimmed bare address. -/
theorem extractCleanEmail_spec_witness :
    extractCleanEmail "Name <a@b.com>".data = "a@b.com".data ∧
    extractCleanEmail "  a@b.com  ".data = "a@b.com".data := by
  constructor
  · have h := extractCleanEmail_spec.1 "Name ".data "a@b.com".data
      (by decide) (by decide) (by decide) (by decide)
    exact h
  · have h := extractCleanEmail_spec.2 "  ".data "  ".data "a@b.com".data
      (by decide) (by decide) (by decide) (by decide) (by decide) (by decide)
    exact h

/-! ## C1: the reply-loop guard -/

/-- C1 counterexample: with `Return-Path` carrying the assistant address
but the `from` list carrying `alice@x.com`, the guard classifies the
message as a loop message even though the cleaned first `from` address
differs from the assistant address — `should_reply_to_email` derives the
sender from `Return-Path` first, not from `from[0]`. -/
theorem isLoopMessage_counterexample :
    isLoopMessage "bookdev@bhaang.com".data
      { fromList := ["alice@x.com".data],
        return_path := "<bookdev@bhaang.com>".data } = true ∧
    pyLower (extractCleanEmail "alice@x.com".data) ≠
      pyLower "bookdev@bhaang.com".data := by
  refine ⟨by decide, by decide⟩

/-- C1 (amended): the guard is computed from the sender derived
Return-Path-first.  (1) The `to`, `cc` and `bcc` lists never affect it;
(2) when `Return-Path` is present and an address can be extracted from
it, the guard is true iff that address case-insensitively equals the
assistant address; (3) when `Return-Path` is absent, the guard compares
the address extracted from the first `from` entry (or `""` when nothing
can be extracted). -/
theorem isLoopMessage_spec :
    (∀ (b : List Char) (pe : ParsedEmail) (t2 c2 b2 : List (List Char)),
      isLoopMessage b { pe with toAddrs := t2, ccAddrs := c2, bccAddrs := b2 } =
        isLoopMessage b pe) ∧
    (∀ (b : List Char) (pe : ParsedEmail) (s : List Char),
      pe.return_path ≠ [] → senderFromRaw pe.return_path = some s →
      (isLoopMessage b pe = true ↔ pyLower s = pyLower b)) ∧
    (∀ (b : List Char) (pe : ParsedEmail) (f : List Char)
        (rest : List (List Char)),
      pe.return_path = [] → pe.fromList = f :: rest →
      (isLoopMessage b pe = true ↔
        pyLower ((senderFromRaw f).getD []) = pyLower b)) := by
  refine ⟨?_, ?_, ?_⟩
  · intro b pe t2 c2 b2
    cases pe
    rfl
  · intro b pe s hrp hs
    have hempty : pe.return_path.isEmpty = false := by
      cases h : pe.return_path with
      | nil => exact absurd h hrp
      | cons x xs => rfl
    unfold isLoopMessage shouldReplyToEmail getOriginalSender
    rw [hempty]
    simp [hs]
  · intro b pe f rest hrp hf
    unfold isLoopMessage shouldReplyToEmail getOriginalSender
    rw [hrp, hf]
    cases hs : senderFromRaw f <;> simp [hs]

/-- Witness for C1's amended theorem: `Return-Path` precedence at a
concrete input, with a case-insensitive assistant-address match. -/
theorem isLoopMessage_spec_witness :
    ("<bookdev@bhaang.com>".data ≠ ([] : List Char)) ∧
    senderFromRaw "<bookdev@bhaang.com>".data = some "bookdev@bhaang.com".data ∧
    (isLoopMessage "BookDev@Bhaang.com".data
        { fromList := ["alice@x.com".data],
          return_path := "<bookdev@bhaang.com>".data } = true ↔
      pyLower "bookdev@bhaang.com".data = pyLower "BookDev@Bhaang.com".data) :=
  ⟨by decide, by decide,
    isLoopMessage_spec.2.1 "BookDev@Bhaang.com".data
      { fromList := ["alice@x.com".data],
        return_path := "<bookdev@bhaang.com>".data }
      "bookdev@bhaang.com".data (by decide) (by decide)⟩

/-! ## C4: the participant list -/

theorem addSenders_lower_ne (b : List Char) (l : List (List Char)) :
    ∀ (acc : List (List Char)), (∀ x ∈ acc, pyLower x ≠ pyLower b) →
      ∀ x ∈ addSenders b acc l, pyLower x ≠ pyLower b := by
  induction l with
  | nil => intro acc hacc x hx; exact hacc x hx
  | cons a rest ih =>
      intro acc hacc x hx
      unfold addSenders at hx
      dsimp only at hx
      split at hx
      · rename_i hcond
        refine ih (acc ++ [extractCleanEmail a]) ?_ x hx
        intro y hy
        rcases List.mem_append.mp hy with h | h
        · exact hacc y h
        · rcases List.mem_singleton.mp h with rfl
          exact hcond.2
      · exact ih acc hacc x hx

theorem addRecipients_lower_ne (b : List Char) (l : List (List Char)) :
    ∀ (acc : List (List Char)), (∀ x ∈ acc, pyLower x ≠ pyLower b) →
      ∀ x ∈ addRecipients b acc l, pyLower x ≠ pyLower b := by
  induction l with
  | nil => intro acc hacc x hx; exact hacc x hx
  | cons a rest ih =>
      intro acc hacc x hx
      unfold addRecipients at hx
      dsimp only at hx
      split at hx
      · rename_i hcond
        refine ih (acc ++ [extractCleanEmail a]) ?_ x hx
        intro y hy
        rcases List.mem_append.mp hy with h | h
        · exact hacc y h
        · rcases List.mem_singleton.mp h with rfl
          exact hcond.2.1
      · exact ih acc hacc x hx

theorem addRecipients_nodup (b : List Char) (l : List (List Char)) :
    ∀ (acc : List (List Char)), acc.Nodup → (addRecipients b acc l).Nodup := by
  induction l with
  | nil => intro acc hacc; exact hacc
  | cons a rest ih =>
      intro acc hacc
      unfold addRecipients
      dsimp only
      split
      · rename_i hcond
        refine ih _ ?_
        simp [List.nodup_append, hacc, hcond.2.2]
      · exact ih acc hacc

theorem addSenders_structure (b : List Char) (l : List (List Char)) :
    ∀ (acc : List (List Char)), ∃ t, addSenders b acc l = acc ++ t ∧
      t.Sublist (l.map extractCleanEmail) := by
  induction l with
  | nil => intro acc; exact ⟨[], by simp [addSenders]⟩
  | cons a rest ih =>
      intro acc
      unfold addSenders
      dsimp only
      split
      · obtain ⟨t, ht, hsub⟩ := ih (acc ++ [extractCleanEmail a])
        refine ⟨extractCleanEmail a :: t, ?_, ?_⟩
        · rw [ht]; simp
        · simpa using hsub.cons₂ (extractCleanEmail a)
      · obtain ⟨t, ht, hsub⟩ := ih acc
        exact ⟨t, ht, by simpa using hsub.cons (extractCleanEmail a)⟩

theorem addRecipients_structure (b : List Char) (l : List (List Char)) :
    ∀ (acc : List (List Char)), ∃ t, addRecipients b acc l = acc ++ t ∧
      t.Sublist (l.map extractCleanEmail) := by
  induction l with
  | nil => intro acc; exact ⟨[], by simp [addRecipients]⟩
  | cons a rest ih =>
      intro acc
      unfold addRecipients
      dsimp only
      split
      · obtain ⟨t, ht, hsub⟩ := ih (acc ++ [extractCleanEmail a])
        refine ⟨extractCleanEmail a :: t, ?_, ?_⟩
        · rw [ht]; simp
        · simpa using hsub.cons₂ (extractCleanEmail a)
      · obtain ⟨t, ht, hsub⟩ := ih acc
        exact ⟨t, ht, by simpa using hsub.cons (extractCleanEmail a)⟩

/-- C4 counterexample: the `from` pass performs no duplicate check, so a
`from` header listing the same address twice produces a participant list
with an exact duplicate. -/
theorem collectParticipants_counterexample :
    collectParticipants "book@bhaang.com".data
      { fromList := ["a@x.com".data, "a@x.com".data] } =
      ["a@x.com".data, "a@x.com".data] ∧
    ¬ (collectParticipants "book@bhaang.com".data
        { fromList := ["a@x.com".data, "a@x.com".data] }).Nodup := by
  refine ⟨by decide, by decide⟩

/-- C4 (amended): the participant list always excludes the assistant
address case-insensitively and preserves first-seen order (it is a
sublist of the cleaned `from ++ to ++ cc` concatenation); it is free of
duplicates provided the cleaned non-assistant `from` addresses are
pairwise distinct — the `to`/`cc` pass deduplicates against the list,
but the `from` pass does not. -/
theorem collectParticipants_spec (b : List Char) (pe : ParsedEmail)
    (h : (addSenders b [] pe.fromList).Nodup) :
    (collectParticipants b pe).Nodup ∧
    (∀ x ∈ collectParticipants b pe, pyLower x ≠ pyLower b) ∧
    (collectParticipants b pe).Sublist
      ((pe.fromList ++ pe.toAddrs ++ pe.ccAddrs).map extractCleanEmail) := by
  refine ⟨addRecipients_nodup b _ _ h, ?_, ?_⟩
  · exact addRecipients_lower_ne b _ _
      (addSenders_lower_ne b pe.fromList [] (by simp)) 
  · obtain ⟨t1, ht1, hsub1⟩ := addSenders_structure b pe.fromList []
    obtain ⟨t2, ht2, hsub2⟩ := addRecipients_structure b (pe.toAddrs ++ pe.ccAddrs)
      (addSenders b [] pe.fromList)
    unfold collectParticipants
    rw [ht2, ht1]
    simp only [List.nil_append, List.append_assoc, List.map_append]
    exact List.Sublist.append hsub1 (by simpa [List.map_append] using hsub2)

/-- Witness for C4's amended theorem at a concrete thread. -/
theorem collectParticipants_spec_witness :
    (addSenders "book@bhaang.com".data []
        ["Alice <alice@x.com>".data] : List (List Char)).Nodup ∧
    ((collectParticipants "book@bhaang.com".data
        { fromList := ["Alice <alice@x.com>".data],
          toAddrs := ["Book@Bhaang.com".data, "bob@y.com".data],
          ccAddrs := ["alice@x.com".data] }).Nodup ∧
      (∀ x ∈ collectParticipants "book@bhaang.com".data
        { fromList := ["Alice <alice@x.com>".data],
          toAddrs := ["Book@Bhaang.com".data, "bob@y.com".data],
          ccAddrs := ["alice@x.com".data] },
        pyLower x ≠ pyLower "book@bhaang.com".data) ∧
      (collectParticipants "book@bhaang.com".data
        { fromList := ["Alice <alice@x.com>".data],
          toAddrs := ["Book@Bhaang.com".data, "bob@y.com".data],
          ccAddrs := ["alice@x.com".data] }).Sublist
        ((["Alice <alice@x.com>".data] ++
          ["Book@Bhaang.com".data, "bob@y.com".data] ++
          ["alice@x.com".data]).map extractCleanEmail)) :=
  ⟨by decide,
    collectParticipants_spec "book@bhaang.com".data
      { fromList := ["Alice <alice@x.com>".data],
        toAddrs := ["Book@Bhaang.com".data, "bob@y.com".data],
        ccAddrs := ["alice@x.com".data] } (by decide)⟩

/-! ## C8: batch tool dispatch -/

instance : DecidableEq (Except String (List ChatMsg)) := fun a b =>
  match a, b with
  | Except.error x, Except.error y =>
      if h : x = y then isTrue (by rw [h]) else isFalse (by simp [h])
  | Except.ok x, Except.ok y =>
      if h : x = y then isTrue (by rw [h]) else isFalse (by simp [h])
  | Except.error _, Except.ok _ => isFalse (by simp)
  | Except.ok _, Except.error _ => isFalse (by simp)

/-- A tool environment whose availability tool raises. -/
def envFailing : ToolEnv where
  get_availability := fun _ _ _ => Except.error "boom"
  book_event := fun _ _ _ _ _ _ _ _ _ => Except.ok "null"
  cancel_event := fun _ _ _ => Except.ok "null"

/-- A concrete batch: one failing tool call and one call to an unknown
tool, both with decodable arguments. -/
def batchDecodable : List ToolCall :=
  [⟨"a", "get_availability",
    some [("owner_email", "a@x.com"), ("start_date", "2024-01-01"),
          ("end_date", "2024-01-02")]⟩,
   ⟨"b", "frobnicate", some []⟩]

/-- C8 counterexample: a tool call whose arguments string is not valid
JSON makes `json.loads` raise *outside* the per-call `try`, so the fault
propagates as a raised exception and the rest of the batch (here the
valid call `"id2"`) is never dispatched — no structured `{error: ...}`
tool result is produced for either call. -/
theorem dispatchBatch_counterexample :
    dispatchBatch envStub
      [⟨"id1", "get_availability", none⟩,
       ⟨"id2", "get_availability",
         some [("owner_email", "a@x.com"), ("start_date", "2024-01-01"),
               ("end_date", "2024-01-02")]⟩] =
      Except.error "json.loads: invalid tool arguments" := by decide

/-- C8 (amended): when every call's arguments string decodes, the whole
batch is dispatched — one tool-result turn per call, in order, each
correlated to its call id, with execution faults and unknown tool names
converted to structured error results by the total `execTool` (nothing
propagates).  A call with an undecodable arguments string instead aborts
the batch (see the counterexample). -/
theorem dispatchBatch_spec (env : ToolEnv) (tcs : List ToolCall)
    (h : ∀ tc ∈ tcs, tc.arguments.isSome) :
    ∃ tms, dispatchBatch env tcs = Except.ok tms ∧
      tms.length = tcs.length ∧
      ∀ (n : Nat) (tc : ToolCall) (m : ChatMsg),
        tcs[n]? = some tc → tms[n]? = some m →
        ∃ args, tc.arguments = some args ∧
          m = ChatMsg.tool tc.id (execTool env tc.name args) := by
  induction tcs with
  | nil =>
      refine ⟨[], rfl, rfl, ?_⟩
      intro n tc m h1
      simp at h1
  | cons tc rest ih =>
      obtain ⟨args, hargs⟩ := Option.isSome_iff_exists.mp (h tc (by simp))
      obtain ⟨tms, hok, hlen, hcorr⟩ := ih (fun x hx => h x (by simp [hx]))
      refine ⟨ChatMsg.tool tc.id (execTool env tc.name args) :: tms, ?_, by simp [hlen], ?_⟩
      · unfold dispatchBatch
        rw [hargs, hok]
      · intro n tc' m h1 h2
        cases n with
        | zero =>
            simp only [List.getElem?_cons_zero, Option.some_inj] at h1 h2
            exact ⟨args, h1 ▸ hargs, by rw [← h2, ← h1]⟩
        | succ k =>
            simp only [List.getElem?_cons_succ] at h1 h2
            exact hcorr k tc' m h1 h2

/-- Witness for C8's amended theorem: a batch whose first call raises
inside the tool and whose second call names an unknown tool — both are
dispatched and both produce structured error turns. -/
theorem dispatchBatch_spec_witness :
    (∀ tc ∈ batchDecodable, tc.arguments.isSome) ∧
    (∃ tms, dispatchBatch envFailing batchDecodable = Except.ok tms ∧
      tms.length = batchDecodable.length ∧
      ∀ (n : Nat) (tc : ToolCall) (m : ChatMsg),
        batchDecodable[n]? = some tc → tms[n]? = some m →
        ∃ args, tc.arguments = some args ∧
          m = ChatMsg.tool tc.id (execTool envFailing tc.name args)) ∧
    dispatchBatch envFailing batchDecodable =
      Except.ok [ChatMsg.tool "a" (ToolResult.err "boom"),
                 ChatMsg.tool "b" (ToolResult.err "Unknown tool: frobnicate")] :=
  ⟨by decide, dispatchBatch_spec envFailing batchDecodable (by decide), by decide⟩

/-! ## C9: totality of email parsing -/

/-- A part whose content type is `text/plain` is a leaf: multipart parts
have content type `multipart/<subtype>`. -/
theorem textPlain_is_leaf (p : MimePart)
    (h : ctypeOf p = "text/plain".data) :
    ∃ bytes, getPayloadDecoded p = some bytes := by
  cases p with
  | leaf ct pl => exact ⟨pl, rfl⟩
  | multi st ps =>
      exfalso
      have hm : ("multipart/".data ++ st).head? = some 'm' := rfl
      have ht : ("text/plain".data).head? = some 't' := rfl
      have : some 'm' = some 't' := by
        rw [← hm, ← ht]
        exact congrArg List.head? h
      simp at this

/-- C9: `parse_email_from_s3` returns a `ParsedEmail` for *every* parsed
message — multipart or not, with or without a `text/plain` part, with
missing headers and arbitrary payload bytes — because header access
defaults to the empty string, decoding ignores errors, and
`get_payload(decode=True)` only returns `None` on a multipart payload,
which the `text/plain` search never selects. -/
theorem parseEmailFromS3_total (m : PyMessage) :
    ∃ pe, parseEmailFromS3 m = Except.ok pe := by
  unfold parseEmailFromS3
  dsimp only
  by_cases hm : isMultipart m.root = true
  · rw [if_pos hm]
    cases hfind : (walkPart m.root).find?
        (fun p => ctypeOf p = "text/plain".data) with
    | none => exact ⟨_, rfl⟩
    | some p =>
        have hp := List.find?_some hfind
        have hct : ctypeOf p = "text/plain".data := by
          simpa using hp
        obtain ⟨bytes, hbytes⟩ := textPlain_is_leaf p hct
        simp only [hbytes]
        exact ⟨_, rfl⟩
  · rw [if_neg hm]
    cases hr : m.root with
    | leaf ct pl => exact ⟨_, rfl⟩
    | multi st ps =>
        exfalso
        rw [hr] at hm
        exact hm rfl

/-! ## C10: a malformed `TO:` directive line is kept -/

theorem hasAtLater_cons_of (x : Char) (l : List Char)
    (h : hasAtLater l = true) : hasAtLater (x :: l) = true := by
  unfold hasAtLater
  simp [h]

theorem hasInteriorAt_cons_of (x : Char) (l : List Char)
    (h : hasInteriorAt l = true) : hasInteriorAt (x :: l) = true := by
  cases l with
  | nil => simp [hasInteriorAt] at h
  | cons c rest =>
      unfold hasInteriorAt at h ⊢
      exact hasAtLater_cons_of c rest h

/-- Restriction of the "no token has an interior `'@'`" hypothesis to the
tail of the string. -/
theorem tokens_no_interior_tail (c : Char) (rest : List Char)
    (h : ∀ t ∈ tokens (c :: rest), hasInteriorAt t = false) :
    ∀ t ∈ tokens rest, hasInteriorAt t = false := by
  by_cases hc : pySpace c
  · rw [tokens_cons_space c rest hc] at h
    exact h
  · rw [tokens_cons_nonspace c rest hc] at h
    intro t ht
    cases hrest : rest with
    | nil =>
        subst hrest
        simp [tokens, tokensAux] at ht
    | cons d rest2 =>
        subst hrest
        by_cases hd : pySpace d
        · rw [tokens_cons_space d rest2 hd] at ht
          refine h t ?_
          rw [List.takeWhile_cons, List.dropWhile_cons]
          simp only [hd, Bool.not_true, Bool.false_eq_true, if_false]
          rw [tokens_cons_space d rest2 hd]
          simp [ht]
        · rw [tokens_cons_nonspace d rest2 hd] at ht
          rcases List.mem_cons.mp ht with rfl | ht2
          · -- t is the head token of `rest`; it is the tail of the head
            -- token of `c :: rest`, so an interior '@' would lift
            by_contra hfalse
            have hint : hasInteriorAt (d :: rest2.takeWhile (fun x => !pySpace x)) = true := by
              cases hval : hasInteriorAt (d :: rest2.takeWhile (fun x => !pySpace x)) with
              | true => rfl
              | false => exact absurd hval hfalse
            have hup := hasInteriorAt_cons_of c _ hint
            have hhd := h (c :: d :: rest2.takeWhile (fun x => !pySpace x)) (by
              rw [List.takeWhile_cons]
              simp [hd])
            rw [hhd] at hup
            cases hup
          · refine h t ?_
            rw [List.takeWhile_cons, List.dropWhile_cons]
            simp only [hd, Bool.not_false, if_true]
            right
            simpa using ht2

/-- If no whitespace-delimited token of the string has an interior
`'@'`, then no suffix of the string begins (after whitespace) with a run
that has one — the run from any position is a tail of a token, and an
interior `'@'` in a tail lifts to the whole token. -/
theorem no_interior_run_of_tokens (l : List Char)
    (h : ∀ t ∈ tokens l, hasInteriorAt t = false) :
    ∀ suf, suf <:+ l →
      hasInteriorAt ((suf.dropWhile pySpace).takeWhile
        (fun c => !pySpace c)) = false := by
  induction l with
  | nil =>
      intro suf hsuf
      rw [List.suffix_nil.mp hsuf]
      rfl
  | cons c rest ih =>
      intro suf hsuf
      rcases List.suffix_cons_iff.mp hsuf with rfl | hsuf2
      · by_cases hc : pySpace c
        · rw [List.dropWhile_cons]
          simp only [hc, if_true]
          exact ih (tokens_no_interior_tail c rest h) rest (List.suffix_refl rest)
        · rw [List.dropWhile_cons]
          simp only [hc, Bool.false_eq_true, if_false, List.takeWhile_cons]
          simp only [hc, Bool.not_false, if_true]
          refine h _ ?_
          rw [tokens_cons_nonspace c rest hc]
          exact List.mem_cons_self _ _
      · exact ih (tokens_no_interior_tail c rest h) suf hsuf2

/-- The directive regex cannot match a line none of whose tokens has an
interior `'@'`. -/
theorem toDirectiveSearch_none (l : List Char)
    (h : ∀ t ∈ tokens l, hasInteriorAt t = false) :
    toDirectiveSearch l = none := by
  induction l with
  | nil => rfl
  | cons c rest ih =>
      have hrun := no_interior_run_of_tokens (c :: rest) h
      unfold toDirectiveSearch
      have hmatch : matchAtRun (((c :: rest).drop 3).dropWhile pySpace) = none := by
        have hx := hrun ((c :: rest).drop 3) (List.drop_suffix 3 (c :: rest))
        unfold matchAtRun
        dsimp only
        rw [hx]
        rfl
      rw [hmatch]
      have hih := ih (tokens_no_interior_tail c rest h)
      split <;> exact hih

/-- C10: if the first line of the agent's final text passes the
`startswith('TO:')` test but no whitespace-delimited token of it
contains an interior `'@'` (i.e. no `local@domain` token follows the
label), the dispatcher extracts no greeting recipient, removes nothing,
and the body handed to the mail sender is exactly the original text,
malformed directive line included. -/
theorem malformedDirective_kept (content : List Char)
    (hto : List.isPrefixOf "TO:".data
      (pyUpper (pyStrip ((splitNl (pyStrip content)).headD []))) = true)
    (hnotok : ∀ t ∈ tokens (pyStrip ((splitNl (pyStrip content)).headD [])),
      hasInteriorAt t = false) :
    parseGreetingDirective content = (none, content) ∧
    ∀ (b : List Char) (pe : ParsedEmail) (req : SendRequest),
      sendAiResponseToThread b pe content = SendResult.sent req →
      req.body = content := by
  have hdir : parseGreetingDirective content = (none, content) := by
    unfold parseGreetingDirective
    cases hsplit : splitNl (pyStrip content) with
    | nil => rfl
    | cons l0 restLines =>
        rw [hsplit] at hnotok
        simp only [List.headD_cons] at hnotok
        dsimp only
        rw [toDirectiveSearch_none (pyStrip l0) hnotok]
        split <;> rfl
  refine ⟨hdir, ?_⟩
  intro b pe req hsend
  unfold sendAiResponseToThread at hsend
  rw [hdir] at hsend
  dsimp only at hsend
  split at hsend
  · cases hsend
  · cases hsend
    rfl

/-- Witness for C10 at the concrete text `"TO: bob\nHello"`. -/
theorem malformedDirective_kept_witness :
    (List.isPrefixOf "TO:".data
      (pyUpper (pyStrip ((splitNl (pyStrip "TO: bob\nHello".data)).headD []))) = true) ∧
    (∀ t ∈ tokens (pyStrip ((splitNl (pyStrip "TO: bob\nHello".data)).headD [])),
      hasInteriorAt t = false) ∧
    (parseGreetingDirective "TO: bob\nHello".data = (none, "TO: bob\nHello".data) ∧
      ∀ (b : List Char) (pe : ParsedEmail) (req : SendRequest),
        sendAiResponseToThread b pe "TO: bob\nHello".data = SendResult.sent req →
        req.body = "TO: bob\nHello".data) :=
  ⟨by decide, by decide,
    malformedDirective_kept "TO: bob\nHello".data (by decide) (by decide)⟩

end BookingAgent
